import Mathlib

set_option maxHeartbeats 1000000

/- Shallow embedding of the zone-partitioned clustering and scoring services of the
   cedenar_anomalies repository: the classes PipelineClusterFzz and PipelinePuntaje of
   domain/services/clustering_pipeline_service.py, together with the fuzzy c-means
   wrapper of domain/models/sklearn_fcm_wrapper.py.

   Modelling conventions:
   - A pandas dataframe is a list of column names plus a list of rows (lists of cells).
     A cell is a string, a rational number, a natural number, or NaN.  Machine floats
     are modelled as rationals: every algebraic identity proved here holds exactly in
     rational arithmetic, hence within any floating-point tolerance in the spec.
   - A fitted sklearn Pipeline for clustering is its fitted preprocessor, modelled as
     an opaque-but-total function from a row to a numeric feature vector (the composite
     of column selection and ColumnTransformer.transform), plus the fitted fuzzy
     c-means cluster centers.  The service instantiates the fuzziness exponent m = 2,
     for which the fcmeans exponent 2 / (m - 1) equals 2, so the quantity
     distance ** (2 / (m - 1)) is exactly the squared Euclidean distance; the
     membership formula below is written for that configuration.
   - The fcmeans library defines FCM.predict as the row-wise argmax (first index of
     the maximum, numpy semantics) of FCM.soft_predict, whose row for a point x is
     u_j = 1 / sum_k (t_j / t_k) with t_j the squared distance from x to center j.
   - joblib.dump / joblib.load are modelled as writes and reads of a filesystem store,
     a list of (filename, pipeline) entries with unique names; writing an existing
     name overwrites it in place, otherwise the file is appended.  Path.stem and
     Python str.replace (which replaces every occurrence, left to right) are modelled
     on character lists.  The silhouette-score CSV written by train_by_zone goes to a
     name that never matches the glob pattern pipeline_*.pkl read back by
     load_pipelines, so it is not represented in the pipeline store.
   - Exceptions are modelled with Except; the per-zone fit of train_by_zone (the
     failure source named by the spec) is a parameter returning Except, and the store
     is threaded through the loop so that files written before a failure persist. -/

/-- Cell of a pandas dataframe: NaN, a string, a rational (modelling float), or a
natural number. -/
inductive Cell where
  | na : Cell
  | s (v : String) : Cell
  | q (v : ℚ) : Cell
  | n (v : Nat) : Cell
deriving DecidableEq

/-- Python pd.isna on a cell. -/
def isNA : Cell → Bool
  | Cell.na => true
  | _ => false

/-- Python str() of a cell value, as used by astype(str) and f-strings. -/
def cellStr : Cell → String
  | Cell.na => "nan"
  | Cell.s v => v
  | Cell.q v => toString v
  | Cell.n v => toString v

/-- Python int() truncation of a cell, as used by astype(int); non-numeric cells
raise in pandas and are not exercised by any claim. -/
def cellInt : Cell → Int
  | Cell.na => 0
  | Cell.s _ => 0
  | Cell.q v => if 0 ≤ v then ⌊v⌋ else ⌈v⌉
  | Cell.n v => (v : Int)

/-- Pandas dataframe: ordered column names and rows of cells. -/
structure PandasDF where
  cols : List String
  rows : List (List Cell)
deriving DecidableEq

/-- Value of column c in row r (cells are positional, columns give the index). -/
def getCellD (cols : List String) (r : List Cell) (c : String) : Cell :=
  (r.get? (cols.indexOf c)).getD Cell.na

/-- Pandas column assignment df[c] = vs: overwrite the column in place when the name
exists, otherwise append it on the right. -/
def setCol (df : PandasDF) (c : String) (vs : List Cell) : PandasDF :=
  if df.cols.contains c then
    ⟨df.cols, (df.rows.zip vs).map (fun p => p.1.set (df.cols.indexOf c) p.2)⟩
  else
    ⟨df.cols ++ [c], (df.rows.zip vs).map (fun p => p.1 ++ [p.2])⟩

/-- Pandas df.dropna(subset=[c]): keep the rows whose cell in column c is not NaN. -/
def dropnaSubset (df : PandasDF) (c : String) : PandasDF :=
  ⟨df.cols, df.rows.filter (fun r => !(isNA (getCellD df.cols r c)))⟩

/-- Pandas df[df["Zona"] == z].copy(): rows whose Zona cell equals the string z. -/
def filterZona (df : PandasDF) (z : String) : PandasDF :=
  ⟨df.cols, df.rows.filter (fun r => getCellD df.cols r "Zona" == Cell.s z)⟩

/-- Pandas Series.unique(): distinct values in order of first appearance. -/
def dedupFirst : List String → List String
  | [] => []
  | z :: zs => z :: (dedupFirst zs).filter (fun w => w ≠ z)

/-- The string values of df["Zona"].unique(); zone values are strings in this data
set, and only string zones are exercised by the claims. -/
def uniqueZonas (df : PandasDF) : List String :=
  dedupFirst ((df.rows.map (fun r => getCellD df.cols r "Zona")).filterMap
    (fun c => match c with | Cell.s z => some z | _ => none))

/-- Python dict lookup for a dict built by successive insertions from an association
list: the last binding of a key wins. -/
def dictGet {α : Type} (l : List (String × α)) (k : String) : Option α :=
  ((l.filter (fun e => e.1 == k)).getLast?).map Prod.snd

/-- Read of a file from a store whose names are unique: first match. -/
def fsRead {α : Type} (st : List (String × α)) (name : String) : Option α :=
  (st.find? (fun f => f.1 == name)).map Prod.snd

/-- Squared Euclidean distance between feature vectors, the quantity
distance ** (2 / (m - 1)) of fcmeans at the configured m = 2. -/
def sqDist (x c : List ℚ) : ℚ :=
  ((x.zip c).map (fun p => (p.1 - p.2) * (p.1 - p.2))).sum

/-- Maximum of a list of rationals, none when empty. -/
def listMax : List ℚ → Option ℚ
  | [] => none
  | x :: xs =>
    match listMax xs with
    | none => some x
    | some m => some (max x m)

/-- Numpy argmax: index of the first occurrence of the maximum (0 on the empty
list, which numpy rejects; fitted models have at least one cluster). -/
def argmaxIdx : List ℚ → Nat
  | [] => 0
  | x :: xs =>
    match listMax xs with
    | none => 0
    | some m => if x < m then argmaxIdx xs + 1 else 0

/-- Row of FCM.soft_predict for the transformed point x: membership
u_j = 1 / sum_k (t_j / t_k), with t_j the squared distance from x to center j
(fcmeans formula at m = 2). -/
def SklearnFCMWrapper.soft_predict (centers : List (List ℚ)) (x : List ℚ) : List ℚ :=
  let temps := centers.map (fun c => sqDist x c)
  temps.map (fun tj => 1 / (temps.map (fun tk => tj / tk)).sum)

/-- Row of FCM.predict: fcmeans defines predict as the argmax of soft_predict. -/
def SklearnFCMWrapper.predict (centers : List (List ℚ)) (x : List ℚ) : Nat :=
  argmaxIdx (SklearnFCMWrapper.soft_predict centers x)

/-- Fitted clustering Pipeline of PipelineClusterFzz: the fitted preprocessing
transform (a function of the row's feature columns) and the fitted FCM centers. -/
structure ClusterPipeline where
  transform : List Cell → List ℚ
  centers : List (List ℚ)

/-- Column names cluster_0 .. cluster_{k-1} built in PipelineClusterFzz.predict. -/
def clusterCols (k : Nat) : List String :=
  (List.range k).map (fun i => "cluster_" ++ toString i)

/-- PipelineClusterFzz.predict: copy the frame, compute hard labels with the FCM
predict and assign them to column cluster_id, compute the soft-membership matrix
with soft_predict (one column per cluster, the matrix has centers.length columns),
and concatenate the membership columns on the right, positionally. -/
def PipelineClusterFzz.predict (pl : ClusterPipeline) (df : PandasDF) : PandasDF :=
  let labels := df.rows.map (fun r => SklearnFCMWrapper.predict pl.centers (pl.transform r))
  let df1 := setCol df "cluster_id" (labels.map Cell.n)
  let u := df.rows.map (fun r => SklearnFCMWrapper.soft_predict pl.centers (pl.transform r))
  ⟨df1.cols ++ clusterCols pl.centers.length,
    (df1.rows.zip u).map (fun p => p.1 ++ p.2.map Cell.q)⟩

/-- Row-level form of PipelineClusterFzz.predict on a frame with no preexisting
cluster_id column: the input row with the hard label and the membership values
appended.  Proved equal to the frame-level definition in the lemmas below. -/
def PipelineClusterFzz.predictRow (pl : ClusterPipeline) (r : List Cell) : List Cell :=
  r ++ Cell.n (SklearnFCMWrapper.predict pl.centers (pl.transform r)) ::
    (SklearnFCMWrapper.soft_predict pl.centers (pl.transform r)).map Cell.q

/-- Pandas pd.concat(blocks, ignore_index=True) as called by predict_all_zones:
raises ValueError on an empty list of objects; otherwise stacks the rows.  The
blocks built by predict_all_zones share one column list whenever every pipeline in
the mapping has the same number of clusters, which is how the service builds them
(one n_clusters configures every zone), so no column alignment is needed. -/
def pdConcatBlocks : List PandasDF → Except String PandasDF
  | [] => Except.error "No objects to concatenate"
  | b :: bs => Except.ok ⟨b.cols, ((b :: bs).map PandasDF.rows).flatten⟩

/-- PipelineClusterFzz.predict_all_zones: for each (zona, pipeline) entry of the
mapping, in order, filter the frame to that zone's rows, predict with that zone's
pipeline, and concatenate the per-zone results. -/
def PipelineClusterFzz.predict_all_zones (df : PandasDF)
    (pipelines : List (String × ClusterPipeline)) : Except String PandasDF :=
  pdConcatBlocks (pipelines.map (fun zp => PipelineClusterFzz.predict zp.2 (filterZona df zp.1)))

/-- Python str.replace on character lists, fuelled for structural recursion (the
fuel is the input length, which bounds the number of scanning steps): replace
every occurrence of pat by rep, scanning left to right, never overlapping. -/
def replaceFuel (pat rep : List Char) : Nat → List Char → List Char
  | _, [] => []
  | 0, l => l
  | fuel + 1, c :: rest =>
    if pat ≠ [] ∧ pat.isPrefixOf (c :: rest) then
      rep ++ replaceFuel pat rep fuel ((c :: rest).drop pat.length)
    else
      c :: replaceFuel pat rep fuel rest

/-- Python str.replace on character lists. -/
def replaceList (pat rep l : List Char) : List Char :=
  replaceFuel pat rep l.length l

/-- Python str.replace on strings. -/
def pyReplace (s pat rep : String) : String :=
  String.mk (replaceList pat.toList rep.toList s.toList)

/-- pathlib Path.stem on a file name: drop the last dot and what follows it, or the
whole name when it has no dot. -/
def stemList (l : List Char) : List Char :=
  if l.contains '.' then ((l.reverse.dropWhile (fun c => c ≠ '.')).drop 1).reverse
  else l

/-- pathlib Path.stem on strings. -/
def pyStem (s : String) : String :=
  String.mk (stemList s.toList)

/-- Occurrence of pat as a contiguous sublist (Python: pat in s). -/
def occursSub (pat : List Char) : List Char → Bool
  | [] => pat.isEmpty
  | c :: r => pat.isPrefixOf (c :: r) || occursSub pat r

/-- pathlib Path.glob with the pattern pipeline_*.pkl of load_pipelines: the star
matches any characters except a path separator. -/
def globPipelinePkl (s : String) : Bool :=
  let l := s.toList
  ("pipeline_".toList.isPrefixOf l) && (".pkl".toList.isSuffixOf l) &&
    (13 ≤ l.length) && (((l.drop 9).take (l.length - 13)).all (fun c => c ≠ '/'))

/-- Model directory holding the serialized zone pipelines: joblib round-trips the
object, so a file is its name and the pipeline object it stores. -/
abbrev ClusterStore : Type := List (String × ClusterPipeline)

/-- Write of a file: overwrite in place when the name exists, else append. -/
def storeWrite (st : ClusterStore) (name : String) (pl : ClusterPipeline) : ClusterStore :=
  if st.any (fun f => f.1 == name) then
    st.map (fun f => if f.1 == name then (name, pl) else f)
  else st ++ [(name, pl)]

/-- Loop body of PipelineClusterFzz.train_by_zone over the discovered zones:
fit the zone (fitZone abstracts self.fit, the source of per-zone exceptions named
by the spec: building and fitting the pipeline on the zone's rows), dump the fitted
pipeline to pipeline_{zona}.pkl, and record it in the returned mapping.  An
exception aborts the loop; files already written persist in the store. -/
def PipelineClusterFzz.train_by_zone_go (fitZone : String → Except String ClusterPipeline) :
    List String → ClusterStore → ClusterStore × Except String (List (String × ClusterPipeline))
  | [], st => (st, Except.ok [])
  | z :: zs, st =>
    match fitZone z with
    | Except.error e => (st, Except.error e)
    | Except.ok pl =>
      let st1 := storeWrite st ("pipeline_" ++ z ++ ".pkl") pl
      match PipelineClusterFzz.train_by_zone_go fitZone zs st1 with
      | (st2, Except.ok rest) => (st2, Except.ok ((z, pl) :: rest))
      | (st2, Except.error e) => (st2, Except.error e)

/-- PipelineClusterFzz.train_by_zone: iterate the loop body over
df["Zona"].unique() starting from the current model directory contents. -/
def PipelineClusterFzz.train_by_zone (fitZone : String → Except String ClusterPipeline)
    (df : PandasDF) (st : ClusterStore) :
    ClusterStore × Except String (List (String × ClusterPipeline)) :=
  PipelineClusterFzz.train_by_zone_go fitZone (uniqueZonas df) st

/-- PipelineClusterFzz.load_pipelines: for every file of the model directory
matching pipeline_*.pkl, parse the zone key as stem.replace("pipeline_", "") and
load the pipeline; the result is a dict keyed by the parsed zone names. -/
def PipelineClusterFzz.load_pipelines (st : ClusterStore) : List (String × ClusterPipeline) :=
  (st.filter (fun f => globPipelinePkl f.1)).map
    (fun f => (pyReplace (pyStem f.1) "pipeline_" "", f.2))

/-- Fitted scoring Pipeline of PipelinePuntaje: predict_proba as a row function
returning one probability per class; sklearn guarantees the row width equals the
number of classes of the fitted classifier. -/
structure PuntajePipeline where
  nClasses : Nat
  proba : List Cell → List ℚ
  proba_len : ∀ r, (proba r).length = nClasses

/-- PipelinePuntaje.predict: copy the frame, run predict_proba on every row (no
zone filtering), name the probability columns puntaje_1 .. puntaje_K for the K
columns of the probability matrix, and concatenate them on the right,
positionally. -/
def PipelinePuntaje.predict (pl : PuntajePipeline) (df : PandasDF) : PandasDF :=
  let u := df.rows.map (fun r => pl.proba r)
  let puntajeCols := (List.range pl.nClasses).map (fun i => "puntaje_" ++ toString (i + 1))
  ⟨df.cols ++ puntajeCols, (df.rows.zip u).map (fun p => p.1 ++ p.2.map Cell.q)⟩

/-- Model directory entries holding the serialized scoring pipeline. -/
abbrev PuntajeStore : Type := List (String × PuntajePipeline)

/-- PipelinePuntaje.load_pipeline: load pipe_puntaje.pkl when the file exists,
otherwise return None without raising. -/
def PipelinePuntaje.load_pipeline (st : PuntajeStore) : Option PuntajePipeline :=
  if st.any (fun f => f.1 == "pipe_puntaje.pkl") then fsRead st "pipe_puntaje.pkl"
  else none

/-- Arguments of the train_test_split call made by PipelinePuntaje.fit: the frame
X passed (the label-complete rows with the stratification column appended), the
integer target y, the test fraction, the random seed, and the stratification
key column. -/
structure SplitCall where
  X : PandasDF
  y : List Int
  testSize : ℚ
  seed : Nat
  stratify : List String

/-- Preparation phase of PipelinePuntaje.fit, up to its train_test_split call:
drop the rows with a missing puntaje label, build the compound stratification key
str(puntaje) + "_" + str(Zona) per remaining row, assign it as column
puntaje_zona_stratify, and call train_test_split(X, y, test_size=0.20,
random_state=42, stratify=that column).  The rest of fit (classifier training,
metric computation, artifact dump) happens after this call and is not touched by
the split claim. -/
def PipelinePuntaje.fitSplitCall (df : PandasDF) : SplitCall :=
  let df1 := dropnaSubset df "puntaje"
  let strat := df1.rows.map
    (fun r => cellStr (getCellD df1.cols r "puntaje") ++ "_" ++ cellStr (getCellD df1.cols r "Zona"))
  let df2 := setCol df1 "puntaje_zona_stratify" (strat.map Cell.s)
  { X := df2,
    y := df1.rows.map (fun r => cellInt (getCellD df1.cols r "puntaje")),
    testSize := 1 / 5,
    seed := 42,
    stratify := strat }

/-- Soft-membership row computed by PipelineClusterFzz.predict for one input row:
the composition of the fitted preprocessing transform with FCM.soft_predict. -/
def uRow (pl : ClusterPipeline) (r : List Cell) : List ℚ :=
  SklearnFCMWrapper.soft_predict pl.centers (pl.transform r)

/- Concrete fitted pipelines and frames used to instantiate the theorems below. -/

/-- Concrete two-cluster fitted pipeline: every row maps to the point [0], the
fitted centers are [1] and [3] (squared distances 1 and 9, both positive). -/
def plW : ClusterPipeline := ⟨fun _ => [0], [[1], [3]]⟩

/-- Concrete two-class fitted scoring pipeline with constant probabilities. -/
def puntajeW : PuntajePipeline := ⟨2, fun _ => [1 / 2, 1 / 2], fun _ => rfl⟩

/-- Concrete frame with one zone column and two zones. -/
def dfW1 : PandasDF := ⟨["Zona"], [[Cell.s "A"], [Cell.s "B"]]⟩

/-- Concrete frame with a zone column and a puntaje column with one missing label. -/
def dfW2 : PandasDF := ⟨["Zona", "puntaje"], [[Cell.s "A", Cell.q 3], [Cell.s "B", Cell.na]]⟩

/-- Concrete frame whose second row's zone has no pipeline in the mapping used with
it below. -/
def dfW3 : PandasDF := ⟨["Zona"], [[Cell.s "A"], [Cell.s "C"]]⟩

/-- Concrete zone-to-pipeline mapping with the two zones of dfW1. -/
def plsW : List (String × ClusterPipeline) := [("A", plW), ("B", plW)]

/-- Output frame of predict_all_zones on dfW1 with plsW (memberships 9/10 and 1/10
for the constant transformed point [0] and centers [1], [3]). -/
def outW : PandasDF :=
  ⟨["Zona", "cluster_id", "cluster_0", "cluster_1"],
   [[Cell.s "A", Cell.n 0, Cell.q (9 / 10), Cell.q (1 / 10)],
    [Cell.s "B", Cell.n 0, Cell.q (9 / 10), Cell.q (1 / 10)]]⟩

/- General list lemmas used across the development. -/

lemma map_congr_mem {α β : Type} {f g : α → β} :
    ∀ {l : List α}, (∀ a ∈ l, f a = g a) → l.map f = l.map g := by
  intro l
  induction l with
  | nil => intro _; rfl
  | cons x xs ih =>
    intro h
    simp only [List.map_cons]
    rw [h x (by simp), ih (fun a ha => h a (by simp [ha]))]

lemma map_id_mem {α : Type} {f : α → α} :
    ∀ {l : List α}, (∀ a ∈ l, f a = a) → l.map f = l := by
  intro l
  induction l with
  | nil => intro _; rfl
  | cons x xs ih =>
    intro h
    simp only [List.map_cons]
    rw [h x (by simp), ih (fun a ha => h a (by simp [ha]))]

lemma zip_map_self {α γ δ : Type} (g : α → γ) (F : α → γ → δ) :
    ∀ l : List α, ((l.zip (l.map g)).map (fun p => F p.1 p.2)) = l.map (fun x => F x (g x)) := by
  intro l
  induction l with
  | nil => rfl
  | cons x xs ih => simp only [List.map_cons, List.zip_cons_cons, ih]

lemma map_zip_map {α β γ δ : Type} (f : α → β) (g : α → γ) (F : β → γ → δ) :
    ∀ l : List α,
      (((l.map f).zip (l.map g)).map (fun p => F p.1 p.2)) = l.map (fun x => F (f x) (g x)) := by
  intro l
  induction l with
  | nil => rfl
  | cons x xs ih => simp only [List.map_cons, List.zip_cons_cons, ih]

lemma filter_or_perm {α : Type} (p q : α → Bool) :
    ∀ l : List α, (∀ x ∈ l, ¬(p x = true ∧ q x = true)) →
      List.Perm (l.filter p ++ l.filter q) (l.filter (fun x => p x || q x)) := by
  intro l
  induction l with
  | nil => intro _; simp
  | cons x xs ih =>
    intro hdis
    have ihx := ih (fun a ha => hdis a (by simp [ha]))
    cases hp : p x with
    | true =>
      have hq : q x = false := by
        cases hq : q x with
        | true => exact absurd ⟨hp, hq⟩ (hdis x (by simp))
        | false => rfl
      simp only [List.filter_cons, hp, hq, if_true, Bool.false_eq_true, if_false,
        Bool.true_or, List.cons_append]
      exact ihx.cons x
    | false =>
      cases hq : q x with
      | true =>
        simp only [List.filter_cons, hp, hq, Bool.false_eq_true, if_false, if_true,
          Bool.false_or]
        exact List.Perm.trans List.perm_middle (ihx.cons x)
      | false =>
        simp only [List.filter_cons, hp, hq, Bool.false_eq_true, if_false, Bool.false_or]
        exact ihx

/- Properties of listMax and argmaxIdx (numpy argmax semantics). -/

lemma listMax_eq_none {l : List ℚ} : listMax l = none ↔ l = [] := by
  cases l with
  | nil => simp [listMax]
  | cons x xs =>
    constructor
    · intro h
      cases hx : listMax xs <;> simp [listMax, hx] at h
    · intro h
      exact absurd h (by simp)

lemma listMax_isSome (l : List ℚ) (h : l ≠ []) : ∃ m, listMax l = some m := by
  cases hm : listMax l with
  | none => exact absurd (listMax_eq_none.mp hm) h
  | some m => exact ⟨m, rfl⟩

lemma listMax_mem_le : ∀ (l : List ℚ) (m : ℚ), listMax l = some m → ∀ v ∈ l, v ≤ m := by
  intro l
  induction l with
  | nil => intro m hm; simp [listMax] at hm
  | cons x xs ih =>
    intro m hm v hv
    cases hx : listMax xs with
    | none =>
      have hxs : xs = [] := listMax_eq_none.mp hx
      subst hxs
      simp [listMax] at hm
      simp at hv
      simp [hv, hm]
    | some mx =>
      simp [listMax, hx] at hm
      rcases List.mem_cons.mp hv with h | h
      · subst h; rw [← hm]; exact le_max_left _ _
      · calc v ≤ mx := ih mx hx v h
          _ ≤ m := by rw [← hm]; exact le_max_right _ _

lemma argmax_get : ∀ (l : List ℚ) (m : ℚ), listMax l = some m → l.get? (argmaxIdx l) = some m := by
  intro l
  induction l with
  | nil => intro m hm; simp [listMax] at hm
  | cons x xs ih =>
    intro m hm
    cases hx : listMax xs with
    | none =>
      have hxs : xs = [] := listMax_eq_none.mp hx
      subst hxs
      simp [listMax] at hm
      simp [argmaxIdx, listMax, hm]
    | some mx =>
      simp [listMax, hx] at hm
      by_cases hlt : x < mx
      · have hmax : m = mx := by rw [← hm]; exact max_eq_right hlt.le
        simp only [argmaxIdx, hx, if_pos hlt]
        simpa [hmax] using ih mx hx
      · have hmax : m = x := by rw [← hm]; exact max_eq_left (le_of_not_lt hlt)
        simp [argmaxIdx, hx, if_neg hlt, hmax]

lemma argmax_lt_length (l : List ℚ) (h : l ≠ []) : argmaxIdx l < l.length := by
  obtain ⟨m, hm⟩ := listMax_isSome l h
  have := argmax_get l m hm
  exact (List.get?_eq_some.mp this).1

lemma argmax_first : ∀ (l : List ℚ) (m : ℚ), listMax l = some m →
    ∀ j < argmaxIdx l, ∀ v, l.get? j = some v → v < m := by
  intro l
  induction l with
  | nil => intro m hm; simp [listMax] at hm
  | cons x xs ih =>
    intro m hm j hj v hv
    cases hx : listMax xs with
    | none =>
      simp [argmaxIdx, hx] at hj
    | some mx =>
      simp [listMax, hx] at hm
      by_cases hlt : x < mx
      · have hmax : m = mx := by rw [← hm]; exact max_eq_right hlt.le
        simp only [argmaxIdx, hx, if_pos hlt] at hj
        cases j with
        | zero =>
          simp at hv
          rw [hmax, ← hv]
          exact hlt
        | succ j' =>
          have hj' : j' < argmaxIdx xs := by omega
          simp only [List.get?_cons_succ] at hv
          rw [hmax]
          exact ih mx hx j' hj' v hv
      · simp [argmaxIdx, hx, if_neg hlt] at hj

/- Rational sum lemmas for the fuzzy membership normalization. -/

lemma sum_map_mul_right (f : ℚ → ℚ) (c : ℚ) :
    ∀ l : List ℚ, (l.map (fun x => f x * c)).sum = (l.map f).sum * c := by
  intro l
  induction l with
  | nil => simp
  | cons x xs ih => simp [ih, add_mul]

lemma sum_map_div_eq (t : ℚ) :
    ∀ l : List ℚ, (l.map (fun tk => t / tk)).sum = t * (l.map (fun tk => 1 / tk)).sum := by
  intro l
  induction l with
  | nil => simp
  | cons x xs ih =>
    simp only [List.map_cons, List.sum_cons, ih]
    rw [div_eq_mul_one_div t x]
    ring

lemma sum_inv_nonneg : ∀ l : List ℚ, (∀ v ∈ l, 0 < v) → 0 ≤ (l.map (fun v => 1 / v)).sum := by
  intro l
  induction l with
  | nil => intro _; simp
  | cons x xs ih =>
    intro h
    simp only [List.map_cons, List.sum_cons]
    have hx : 0 < x := h x (by simp)
    have := ih (fun v hv => h v (by simp [hv]))
    have h1 : 0 ≤ 1 / x := le_of_lt (by positivity)
    linarith

lemma sum_inv_pos : ∀ l : List ℚ, l ≠ [] → (∀ v ∈ l, 0 < v) →
    0 < (l.map (fun v => 1 / v)).sum := by
  intro l
  cases l with
  | nil => intro h; exact absurd rfl h
  | cons x xs =>
    intro _ h
    simp only [List.map_cons, List.sum_cons]
    have hx : 0 < x := h x (by simp)
    have h1 : 0 < 1 / x := by positivity
    have h2 : 0 ≤ (xs.map (fun v => 1 / v)).sum := sum_inv_nonneg xs (fun v hv => h v (by simp [hv]))
    linarith

lemma soft_row_elem (temps : List ℚ) :
    temps.map (fun tj => 1 / (temps.map (fun tk => tj / tk)).sum) =
      temps.map (fun tj => (1 / tj) * (1 / (temps.map (fun tk => 1 / tk)).sum)) := by
  have h : (fun tj => 1 / (temps.map (fun tk => tj / tk)).sum) =
      fun tj => (1 / tj) * (1 / (temps.map (fun tk => 1 / tk)).sum) := by
    funext t
    rw [sum_map_div_eq, div_mul_div_comm]
    norm_num
  rw [h]

lemma soft_temps_sum_one (temps : List ℚ) (hne : temps ≠ []) (hpos : ∀ t ∈ temps, 0 < t) :
    (temps.map (fun tj => 1 / (temps.map (fun tk => tj / tk)).sum)).sum = 1 := by
  rw [soft_row_elem]
  rw [sum_map_mul_right (fun t => 1 / t) (1 / (temps.map (fun tk => 1 / tk)).sum)]
  have hS : 0 < (temps.map (fun tk => 1 / tk)).sum := sum_inv_pos temps hne hpos
  rw [mul_one_div, div_self (ne_of_gt hS)]

lemma soft_temps_nonneg (temps : List ℚ) (hpos : ∀ t ∈ temps, 0 < t) :
    ∀ v ∈ temps.map (fun tj => 1 / (temps.map (fun tk => tj / tk)).sum), 0 ≤ v := by
  intro v hv
  rcases List.mem_map.mp hv with ⟨tj, htj, hval⟩
  have hne : temps ≠ [] := List.ne_nil_of_mem htj
  have hS : 0 < (temps.map (fun tk => 1 / tk)).sum := sum_inv_pos temps hne hpos
  have ht : 0 < tj := hpos tj htj
  rw [← hval, sum_map_div_eq]
  positivity

lemma soft_predict_length (centers : List (List ℚ)) (x : List ℚ) :
    (SklearnFCMWrapper.soft_predict centers x).length = centers.length := by
  simp [SklearnFCMWrapper.soft_predict]

lemma soft_predict_sum_one (centers : List (List ℚ)) (x : List ℚ) (hne : centers ≠ [])
    (hpos : ∀ c ∈ centers, 0 < sqDist x c) :
    (SklearnFCMWrapper.soft_predict centers x).sum = 1 := by
  unfold SklearnFCMWrapper.soft_predict
  apply soft_temps_sum_one
  · simp [hne]
  · intro t ht
    rcases List.mem_map.mp ht with ⟨c, hc, hval⟩
    rw [← hval]
    exact hpos c hc

lemma soft_predict_nonneg (centers : List (List ℚ)) (x : List ℚ)
    (hpos : ∀ c ∈ centers, 0 < sqDist x c) :
    ∀ v ∈ SklearnFCMWrapper.soft_predict centers x, 0 ≤ v := by
  unfold SklearnFCMWrapper.soft_predict
  apply soft_temps_nonneg
  intro t ht
  rcases List.mem_map.mp ht with ⟨c, hc, hval⟩
  rw [← hval]
  exact hpos c hc

/- Shape of PipelineClusterFzz.predict on a frame with no preexisting cluster_id
column: new columns strictly appended, rows mapped by predictRow. -/

lemma predict_rows_eq (f : List Cell → Nat) (g : List Cell → List ℚ) :
    ∀ l : List (List Cell),
      (((l.zip ((l.map f).map Cell.n)).map (fun p => p.1 ++ [p.2])).zip (l.map g)).map
          (fun p => p.1 ++ p.2.map Cell.q) =
        l.map (fun r => r ++ Cell.n (f r) :: (g r).map Cell.q) := by
  intro l
  induction l with
  | nil => rfl
  | cons x xs ih =>
    simp only [List.map_cons, List.zip_cons_cons, ih, List.append_assoc, List.singleton_append]

lemma predict_shape (pl : ClusterPipeline) (df : PandasDF)
    (hcid : df.cols.contains "cluster_id" = false) :
    PipelineClusterFzz.predict pl df =
      ⟨df.cols ++ "cluster_id" :: clusterCols pl.centers.length,
       df.rows.map (PipelineClusterFzz.predictRow pl)⟩ := by
  unfold PipelineClusterFzz.predict setCol
  simp only [hcid, Bool.false_eq_true, if_false]
  congr 1
  · simp
  · have h := predict_rows_eq
      (fun r => SklearnFCMWrapper.predict pl.centers (pl.transform r))
      (fun r => SklearnFCMWrapper.soft_predict pl.centers (pl.transform r)) df.rows
    simpa [PipelineClusterFzz.predictRow] using h

/- Shape of PipelinePuntaje.predict: probability columns appended, rows mapped. -/

lemma puntaje_predict_shape (pl : PuntajePipeline) (df : PandasDF) :
    PipelinePuntaje.predict pl df =
      ⟨df.cols ++ (List.range pl.nClasses).map (fun i => "puntaje_" ++ toString (i + 1)),
       df.rows.map (fun r => r ++ (pl.proba r).map Cell.q)⟩ := by
  unfold PipelinePuntaje.predict
  dsimp only
  congr 1
  exact zip_map_self (fun r => pl.proba r) (fun a b => a ++ b.map Cell.q) df.rows

/-- C2 (hard/soft consistency): for every row predicted by
PipelineClusterFzz.predict under one fitted pipeline, the cluster_id value is the
index of the maximum among the row's soft-membership columns
cluster_0 .. cluster_{n_clusters-1}: the entry of the membership row at the hard
label is defined, is greater than or equal to every membership value of the row,
and every entry before it is strictly smaller (numpy argmax returns the first
maximum). -/
theorem C2_hard_soft_consistency (pl : ClusterPipeline) (df : PandasDF)
    (hcid : df.cols.contains "cluster_id" = false) (hk : 0 < pl.centers.length) :
    ∀ i r, df.rows.get? i = some r →
      ∃ m, (PipelineClusterFzz.predict pl df).rows.get? i =
          some (r ++ Cell.n (SklearnFCMWrapper.predict pl.centers (pl.transform r)) ::
            (uRow pl r).map Cell.q) ∧
        SklearnFCMWrapper.predict pl.centers (pl.transform r) < (uRow pl r).length ∧
        (uRow pl r).get? (SklearnFCMWrapper.predict pl.centers (pl.transform r)) = some m ∧
        (∀ v ∈ uRow pl r, v ≤ m) ∧
        (∀ j < SklearnFCMWrapper.predict pl.centers (pl.transform r),
          ∀ v, (uRow pl r).get? j = some v → v < m) := by
  intro i r hr
  have hlen : (uRow pl r).length = pl.centers.length :=
    soft_predict_length pl.centers (pl.transform r)
  have hne : uRow pl r ≠ [] := by
    intro h0
    rw [h0] at hlen
    simp at hlen
    omega
  obtain ⟨m, hm⟩ := listMax_isSome _ hne
  refine ⟨m, ?_, ?_, ?_, listMax_mem_le _ m hm, ?_⟩
  · rw [predict_shape pl df hcid]
    simp only [List.get?_map, hr, Option.map_some]
    rfl
  · exact argmax_lt_length _ hne
  · exact argmax_get _ m hm
  · exact argmax_first _ m hm

theorem C2_hard_soft_consistency_witness :
    (dfW1.cols.contains "cluster_id" = false) ∧ (0 < plW.centers.length) ∧
    (∀ i r, dfW1.rows.get? i = some r →
      ∃ m, (PipelineClusterFzz.predict plW dfW1).rows.get? i =
          some (r ++ Cell.n (SklearnFCMWrapper.predict plW.centers (plW.transform r)) ::
            (uRow plW r).map Cell.q) ∧
        SklearnFCMWrapper.predict plW.centers (plW.transform r) < (uRow plW r).length ∧
        (uRow plW r).get? (SklearnFCMWrapper.predict plW.centers (plW.transform r)) = some m ∧
        (∀ v ∈ uRow plW r, v ≤ m) ∧
        (∀ j < SklearnFCMWrapper.predict plW.centers (plW.transform r),
          ∀ v, (uRow plW r).get? j = some v → v < m)) :=
  ⟨by decide, by decide, C2_hard_soft_consistency plW dfW1 (by decide) (by decide)⟩

/-- C7 (soft-membership normalization): for every row produced by
PipelineClusterFzz.predict with a fitted pipeline whose transformed points are at
positive squared distance from every center (the generic situation for a fitted
model; a point coinciding exactly with a center makes the library formula divide
by zero), the soft-membership values appended as columns
cluster_0 .. cluster_{n_clusters-1} are all non-negative and their sum is 1 up to
the tolerance 1e-6 (in the rational model the sum is exactly 1). -/
theorem C7_soft_membership_normalization (pl : ClusterPipeline) (df : PandasDF)
    (hcid : df.cols.contains "cluster_id" = false) (hk : 0 < pl.centers.length)
    (hd : ∀ r ∈ df.rows, ∀ c ∈ pl.centers, 0 < sqDist (pl.transform r) c) :
    ∀ i r, df.rows.get? i = some r →
      (PipelineClusterFzz.predict pl df).rows.get? i =
        some (r ++ Cell.n (SklearnFCMWrapper.predict pl.centers (pl.transform r)) ::
          (uRow pl r).map Cell.q) ∧
      (uRow pl r).length = pl.centers.length ∧
      |(uRow pl r).sum - 1| ≤ 1 / 1000000 ∧
      (∀ v ∈ uRow pl r, 0 ≤ v) := by
  intro i r hr
  have hmem : r ∈ df.rows := List.get?_mem hr
  have hcent : pl.centers ≠ [] := List.length_pos.mp hk
  have hsum : (uRow pl r).sum = 1 :=
    soft_predict_sum_one pl.centers (pl.transform r) hcent (hd r hmem)
  refine ⟨?_, soft_predict_length pl.centers (pl.transform r), ?_, ?_⟩
  · rw [predict_shape pl df hcid]
    simp only [List.get?_map, hr, Option.map_some]
    rfl
  · rw [hsum]
    norm_num
  · exact soft_predict_nonneg pl.centers (pl.transform r) (hd r hmem)

theorem C7_soft_membership_normalization_witness :
    (dfW1.cols.contains "cluster_id" = false) ∧ (0 < plW.centers.length) ∧
    (∀ r ∈ dfW1.rows, ∀ c ∈ plW.centers, 0 < sqDist (plW.transform r) c) ∧
    (∀ i r, dfW1.rows.get? i = some r →
      (PipelineClusterFzz.predict plW dfW1).rows.get? i =
        some (r ++ Cell.n (SklearnFCMWrapper.predict plW.centers (plW.transform r)) ::
          (uRow plW r).map Cell.q) ∧
      (uRow plW r).length = plW.centers.length ∧
      |(uRow plW r).sum - 1| ≤ 1 / 1000000 ∧
      (∀ v ∈ uRow plW r, 0 ≤ v)) := by
  have hd : ∀ r ∈ dfW1.rows, ∀ c ∈ plW.centers, 0 < sqDist (plW.transform r) c := by
    intro r hr c hc
    have hx : plW.transform r = [0] := rfl
    rw [hx]
    have hc2 : c = [1] ∨ c = [3] := by
      simpa [plW] using hc
    rcases hc2 with hc2 | hc2 <;> rw [hc2] <;> norm_num [sqDist]
  exact ⟨by decide, by decide, hd,
    C7_soft_membership_normalization plW dfW1 (by decide) (by decide) hd⟩

/-- C6, counterexample: on an input frame that already has a cluster_id column,
PipelineClusterFzz.predict overwrites that column in place (pandas assignment
semantics), so the produced cluster_id column is not strictly appended after the
original columns: the output columns differ from the original columns followed by
the new column block. -/
theorem C6_column_preservation_counterexample :
    (PipelineClusterFzz.predict plW ⟨["Zona", "cluster_id"], [[Cell.s "A", Cell.n 7]]⟩).cols ≠
      ["Zona", "cluster_id"] ++ "cluster_id" :: clusterCols plW.centers.length := by
  decide

/-- C6, amended (column preservation): on any input frame with no preexisting
cluster_id column, PipelineClusterFzz.predict keeps every original column in its
original position and strictly appends cluster_id and the membership columns, and
every output row is the corresponding input row with the new cells appended in
the original row order; PipelinePuntaje.predict unconditionally keeps every
original column and row in order and strictly appends the puntaje_i columns. -/
theorem C6_column_preservation_amended (pl : ClusterPipeline) (df : PandasDF)
    (plp : PuntajePipeline) (dfp : PandasDF)
    (hcid : df.cols.contains "cluster_id" = false) :
    (PipelineClusterFzz.predict pl df).cols =
        df.cols ++ "cluster_id" :: clusterCols pl.centers.length ∧
    (PipelineClusterFzz.predict pl df).rows =
        df.rows.map (fun r => r ++ Cell.n (SklearnFCMWrapper.predict pl.centers (pl.transform r)) ::
          (uRow pl r).map Cell.q) ∧
    (PipelinePuntaje.predict plp dfp).cols =
        dfp.cols ++ (List.range plp.nClasses).map (fun i => "puntaje_" ++ toString (i + 1)) ∧
    (PipelinePuntaje.predict plp dfp).rows =
        dfp.rows.map (fun r => r ++ (plp.proba r).map Cell.q) := by
  rw [predict_shape pl df hcid, puntaje_predict_shape plp dfp]
  exact ⟨rfl, rfl, rfl, rfl⟩

theorem C6_column_preservation_amended_witness :
    (dfW1.cols.contains "cluster_id" = false) ∧
    ((PipelineClusterFzz.predict plW dfW1).cols =
        dfW1.cols ++ "cluster_id" :: clusterCols plW.centers.length ∧
    (PipelineClusterFzz.predict plW dfW1).rows =
        dfW1.rows.map (fun r => r ++ Cell.n (SklearnFCMWrapper.predict plW.centers (plW.transform r)) ::
          (uRow plW r).map Cell.q) ∧
    (PipelinePuntaje.predict puntajeW dfW1).cols =
        dfW1.cols ++ (List.range puntajeW.nClasses).map (fun i => "puntaje_" ++ toString (i + 1)) ∧
    (PipelinePuntaje.predict puntajeW dfW1).rows =
        dfW1.rows.map (fun r => r ++ (puntajeW.proba r).map Cell.q)) :=
  ⟨by decide, C6_column_preservation_amended plW dfW1 puntajeW dfW1 (by decide)⟩

/- Lemmas about predict_all_zones. -/

lemma pdConcat_ok_mem (blocks : List PandasDF) (out : PandasDF)
    (hok : pdConcatBlocks blocks = Except.ok out) :
    ∀ r ∈ out.rows, ∃ b ∈ blocks, r ∈ b.rows := by
  intro r hr
  cases blocks with
  | nil => simp [pdConcatBlocks] at hok
  | cons b bs =>
    simp only [pdConcatBlocks, Except.ok.injEq] at hok
    rw [← hok] at hr
    rcases List.mem_flatten.mp hr with ⟨l, hl, hrl⟩
    rcases List.mem_map.mp hl with ⟨b2, hb2, hb2l⟩
    rw [← hb2l] at hrl
    exact ⟨b2, hb2, hrl⟩

lemma predict_block_take (df : PandasDF) (hcid : df.cols.contains "cluster_id" = false)
    (hwf : ∀ r ∈ df.rows, r.length = df.cols.length) (pl : ClusterPipeline) (z : String) :
    ((PipelineClusterFzz.predict pl (filterZona df z)).rows).map (fun r => r.take df.cols.length)
      = df.rows.filter (fun r => getCellD df.cols r "Zona" == Cell.s z) := by
  rw [predict_shape pl (filterZona df z) hcid]
  show ((df.rows.filter (fun r => getCellD df.cols r "Zona" == Cell.s z)).map
      (PipelineClusterFzz.predictRow pl)).map (fun r => r.take df.cols.length) =
    df.rows.filter (fun r => getCellD df.cols r "Zona" == Cell.s z)
  rw [List.map_map]
  apply map_id_mem
  intro r hr
  have hrdf : r ∈ df.rows := (List.mem_filter.mp hr).1
  show (PipelineClusterFzz.predictRow pl r).take df.cols.length = r
  unfold PipelineClusterFzz.predictRow
  rw [← hwf r hrdf, List.take_left]

lemma predict_all_rows_take (df : PandasDF) (hcid : df.cols.contains "cluster_id" = false)
    (hwf : ∀ r ∈ df.rows, r.length = df.cols.length) :
    ∀ pls : List (String × ClusterPipeline),
      ((((pls.map (fun zp => PipelineClusterFzz.predict zp.2 (filterZona df zp.1))).map
        PandasDF.rows).flatten).map (fun r => r.take df.cols.length)) =
      (pls.map (fun zp => df.rows.filter
        (fun r => getCellD df.cols r "Zona" == Cell.s zp.1))).flatten := by
  intro pls
  induction pls with
  | nil => rfl
  | cons zp zps ih =>
    simp only [List.map_cons, List.flatten_cons, List.map_append]
    rw [ih, predict_block_take df hcid hwf zp.2 zp.1]

lemma flatten_filter_perm (keyCell : List Cell → Cell) (rows : List (List Cell)) :
    ∀ pls : List (String × ClusterPipeline), (pls.map Prod.fst).Nodup →
      List.Perm ((pls.map (fun zp => rows.filter (fun r => keyCell r == Cell.s zp.1))).flatten)
        (rows.filter (fun r => pls.any (fun zp => keyCell r == Cell.s zp.1))) := by
  intro pls
  induction pls with
  | nil => intro _; simp
  | cons zp zps ih =>
    intro hnd
    simp only [List.map_cons, List.nodup_cons] at hnd
    simp only [List.map_cons, List.flatten_cons, List.any_cons]
    have hdis : ∀ r ∈ rows, ¬((keyCell r == Cell.s zp.1) = true ∧
        (zps.any (fun z => keyCell r == Cell.s z.1)) = true) := by
      intro r _ hand
      have h1 : keyCell r = Cell.s zp.1 := by
        have := hand.1
        exact eq_of_beq this
      rcases List.any_eq_true.mp hand.2 with ⟨z2, hz2, hz2eq⟩
      have h2 : keyCell r = Cell.s z2.1 := eq_of_beq hz2eq
      have : zp.1 = z2.1 := by
        rw [h1] at h2
        exact Cell.s.inj h2
      exact hnd.1 (this ▸ List.mem_map.mpr ⟨z2, hz2, rfl⟩)
    exact List.Perm.trans (List.Perm.append_left _ (ih hnd.2)) (filter_or_perm _ _ rows hdis)

/-- C1 (zone isolation): every row of the output of
PipelineClusterFzz.predict_all_zones was produced by applying the pipeline of
some mapping entry to an input row whose own Zona value equals that entry's key:
a row of zone A is never predicted with zone B's pipeline. -/
theorem C1_zone_isolation (df : PandasDF) (pls : List (String × ClusterPipeline))
    (out : PandasDF) (hcid : df.cols.contains "cluster_id" = false)
    (hok : PipelineClusterFzz.predict_all_zones df pls = Except.ok out) :
    ∀ rout ∈ out.rows, ∃ z pl rin,
      (z, pl) ∈ pls ∧ rin ∈ df.rows ∧ getCellD df.cols rin "Zona" = Cell.s z ∧
      rout = rin ++ Cell.n (SklearnFCMWrapper.predict pl.centers (pl.transform rin)) ::
        (uRow pl rin).map Cell.q := by
  intro rout hrout
  unfold PipelineClusterFzz.predict_all_zones at hok
  rcases pdConcat_ok_mem _ _ hok rout hrout with ⟨b, hb, hrb⟩
  rcases List.mem_map.mp hb with ⟨zp, hzp, hzpb⟩
  rw [← hzpb, predict_shape zp.2 (filterZona df zp.1) hcid] at hrb
  have hrb2 : rout ∈ ((filterZona df zp.1).rows.map (PipelineClusterFzz.predictRow zp.2)) := hrb
  rcases List.mem_map.mp hrb2 with ⟨rin, hrin, hreq⟩
  have hrin2 : rin ∈ df.rows ∧ (getCellD df.cols rin "Zona" == Cell.s zp.1) = true :=
    List.mem_filter.mp hrin
  exact ⟨zp.1, zp.2, rin, by simpa using hzp, hrin2.1, eq_of_beq hrin2.2, hreq.symm⟩

theorem C1_zone_isolation_witness :
    (dfW1.cols.contains "cluster_id" = false) ∧
    (PipelineClusterFzz.predict_all_zones dfW1 plsW = Except.ok outW) ∧
    (∀ rout ∈ outW.rows, ∃ z pl rin,
      (z, pl) ∈ plsW ∧ rin ∈ dfW1.rows ∧ getCellD dfW1.cols rin "Zona" = Cell.s z ∧
      rout = rin ++ Cell.n (SklearnFCMWrapper.predict pl.centers (pl.transform rin)) ::
        (uRow pl rin).map Cell.q) := by
  have hok : PipelineClusterFzz.predict_all_zones dfW1 plsW = Except.ok outW := by
    simp only [PipelineClusterFzz.predict_all_zones, plsW, dfW1, outW, pdConcatBlocks,
      PipelineClusterFzz.predict, setCol, filterZona, getCellD, clusterCols,
      SklearnFCMWrapper.predict, SklearnFCMWrapper.soft_predict, sqDist, argmaxIdx, listMax,
      plW, uRow, List.map_cons, List.map_nil, List.filter, List.zip, List.zipWith,
      List.flatten, List.range, List.indexOf, List.contains, List.sum_cons, List.sum_nil,
      List.get?, List.elem, List.findIdx, List.findIdx.go]
    norm_num
    decide
  exact ⟨by decide, hok, C1_zone_isolation dfW1 plsW outW (by decide) hok⟩

/-- C10, counterexample: with an empty zone-to-pipeline mapping (every row's zone
is unknown), PipelineClusterFzz.predict_all_zones does not return an output frame
at all: pd.concat raises ValueError on an empty list of objects, so the claim
that unknown-zone rows are silently dropped with no error fails for the empty
mapping. -/
theorem C10_unknown_zone_counterexample :
    PipelineClusterFzz.predict_all_zones dfW3 [] =
      Except.error "No objects to concatenate" := rfl

/-- C10, amended (silent omission of unknown zones): for every non-empty pipeline
mapping (pandas concat raises on an empty list) with distinct keys, on a
well-formed input frame without a preexisting cluster_id column,
predict_all_zones returns without error, and its output rows, projected back to
the original columns, are exactly (up to the zone-grouped reordering) the input
rows whose Zona value is a key of the mapping; rows of unknown zones are silently
dropped. -/
theorem C10_silent_omission_amended (df : PandasDF) (pls : List (String × ClusterPipeline))
    (hne : pls ≠ []) (hnodup : (pls.map Prod.fst).Nodup)
    (hcid : df.cols.contains "cluster_id" = false)
    (hwf : ∀ r ∈ df.rows, r.length = df.cols.length) :
    ∃ out, PipelineClusterFzz.predict_all_zones df pls = Except.ok out ∧
      List.Perm (out.rows.map (fun r => r.take df.cols.length))
        (df.rows.filter (fun r => pls.any (fun zp => getCellD df.cols r "Zona" == Cell.s zp.1))) := by
  cases pls with
  | nil => exact absurd rfl hne
  | cons p ps =>
    have hok : PipelineClusterFzz.predict_all_zones df (p :: ps) = Except.ok
        ⟨(PipelineClusterFzz.predict p.2 (filterZona df p.1)).cols,
         (((p :: ps).map (fun zp => PipelineClusterFzz.predict zp.2 (filterZona df zp.1))).map
           PandasDF.rows).flatten⟩ := rfl
    refine ⟨_, hok, ?_⟩
    show List.Perm ((((p :: ps).map
        (fun zp => PipelineClusterFzz.predict zp.2 (filterZona df zp.1))).map
        PandasDF.rows).flatten.map (fun r => r.take df.cols.length)) _
    rw [predict_all_rows_take df hcid hwf (p :: ps)]
    exact flatten_filter_perm (fun r => getCellD df.cols r "Zona") df.rows (p :: ps) hnodup

theorem C10_silent_omission_amended_witness :
    (([("A", plW)] : List (String × ClusterPipeline)) ≠ []) ∧
    (([("A", plW)].map Prod.fst).Nodup) ∧
    (dfW3.cols.contains "cluster_id" = false) ∧
    (∀ r ∈ dfW3.rows, r.length = dfW3.cols.length) ∧
    (∃ out, PipelineClusterFzz.predict_all_zones dfW3 [("A", plW)] = Except.ok out ∧
      List.Perm (out.rows.map (fun r => r.take dfW3.cols.length))
        (dfW3.rows.filter (fun r => [("A", plW)].any
          (fun zp => getCellD dfW3.cols r "Zona" == Cell.s zp.1)))) :=
  ⟨List.cons_ne_nil _ _, by simp, by decide, by decide,
    C10_silent_omission_amended dfW3 [("A", plW)] (List.cons_ne_nil _ _) (by simp)
      (by decide) (by decide)⟩

/- String and character-list lemmas for artifact file names. -/

lemma toList_append (a b : String) : (a ++ b).toList = a.toList ++ b.toList :=
  String.data_append a b

lemma isPrefixOf_append_self : ∀ (l1 l2 : List Char), l1.isPrefixOf (l1 ++ l2) = true := by
  intro l1 l2
  induction l1 with
  | nil => simp [List.isPrefixOf]
  | cons c cs ih => simp [List.isPrefixOf, ih]

lemma isSuffixOf_append_self (l1 l2 : List Char) : l2.isSuffixOf (l1 ++ l2) = true := by
  unfold List.isSuffixOf
  rw [List.reverse_append]
  exact isPrefixOf_append_self l2.reverse l1.reverse

lemma replaceFuel_nil (pat rep : List Char) (f : Nat) : replaceFuel pat rep f [] = [] := by
  cases f <;> rfl

lemma replaceFuel_congr (pat rep : List Char) :
    ∀ (f1 : Nat) (l : List Char) (f2 : Nat), l.length ≤ f1 → l.length ≤ f2 →
      replaceFuel pat rep f1 l = replaceFuel pat rep f2 l := by
  intro f1
  induction f1 with
  | zero =>
    intro l f2 h1 _
    have hl : l = [] := List.eq_nil_of_length_eq_zero (Nat.le_zero.mp h1)
    subst hl
    rw [replaceFuel_nil, replaceFuel_nil]
  | succ fk ih =>
    intro l f2 h1 h2
    cases l with
    | nil => rw [replaceFuel_nil, replaceFuel_nil]
    | cons c rest =>
      cases f2 with
      | zero => simp at h2
      | succ f2k =>
        simp only [replaceFuel]
        simp only [List.length_cons] at h1 h2
        by_cases hcond : pat ≠ [] ∧ pat.isPrefixOf (c :: rest)
        · rw [if_pos hcond, if_pos hcond]
          congr 1
          have hp : 0 < pat.length := List.length_pos.mpr hcond.1
          apply ih
          · simp only [List.length_drop, List.length_cons]
            omega
          · simp only [List.length_drop, List.length_cons]
            omega
        · rw [if_neg hcond, if_neg hcond]
          congr 1
          apply ih
          · omega
          · omega

lemma replace_head (pat rep l : List Char) (h : pat ≠ []) :
    replaceList pat rep (pat ++ l) = rep ++ replaceList pat rep l := by
  cases pat with
  | nil => exact absurd rfl h
  | cons c ps =>
    show replaceFuel (c :: ps) rep (c :: (ps ++ l)).length (c :: (ps ++ l)) = _
    simp only [List.length_cons, replaceFuel]
    rw [if_pos ⟨h, isPrefixOf_append_self (c :: ps) l⟩]
    have hdrop : (c :: (ps ++ l)).drop (ps.length + 1) = l := by
      simp only [List.drop_succ_cons]
      exact List.drop_left ps l
    rw [hdrop]
    have hcg : replaceFuel (c :: ps) rep (ps ++ l).length l =
        replaceFuel (c :: ps) rep l.length l := by
      apply replaceFuel_congr
      · simp [List.length_append]
      · exact le_refl _
    rw [hcg]
    rfl

lemma replace_no_occur (pat rep : List Char) :
    ∀ l : List Char, occursSub pat l = false → replaceList pat rep l = l := by
  intro l
  induction l with
  | nil => intro _; rfl
  | cons c r ih =>
    intro hocc
    simp only [occursSub, Bool.or_eq_false_iff] at hocc
    show replaceFuel pat rep (c :: r).length (c :: r) = c :: r
    simp only [List.length_cons, replaceFuel]
    rw [if_neg (fun hc => by rw [hocc.1] at hc; exact Bool.false_ne_true hc.2)]
    congr 1
    exact ih hocc.2

lemma stem_append_pkl (l : List Char) : stemList (l ++ ".pkl".toList) = l := by
  unfold stemList
  have hc : (l ++ ".pkl".toList).contains '.' = true := by
    have hm : '.' ∈ l ++ ".pkl".toList := List.mem_append_right l (by decide)
    simpa [List.contains] using hm
  rw [if_pos hc, List.reverse_append]
  have hrev : (".pkl".toList).reverse = ['l', 'k', 'p', '.'] := by decide
  rw [hrev]
  have hdw : List.dropWhile (fun c => decide (c ≠ '.')) (['l', 'k', 'p', '.'] ++ l.reverse) =
      '.' :: l.reverse := by
    simp [List.dropWhile]
  rw [hdw]
  simp

lemma glob_fname (z : String) (hs : '/' ∉ z.toList) :
    globPipelinePkl ("pipeline_" ++ z ++ ".pkl") = true := by
  unfold globPipelinePkl
  have htl : ("pipeline_" ++ z ++ ".pkl").toList =
      "pipeline_".toList ++ z.toList ++ ".pkl".toList := by
    rw [toList_append, toList_append]
  rw [htl]
  have h9 : ("pipeline_".toList).length = 9 := by decide
  have h4 : (".pkl".toList).length = 4 := by decide
  have hlen : ("pipeline_".toList ++ z.toList ++ ".pkl".toList).length =
      9 + z.toList.length + 4 := by
    rw [List.length_append, List.length_append, h9, h4]
  have hdrop : ("pipeline_".toList ++ z.toList ++ ".pkl".toList).drop 9 =
      z.toList ++ ".pkl".toList := by
    rw [List.append_assoc, ← h9]
    exact List.drop_left _ _
  have htake : ((z.toList ++ ".pkl".toList).take
      (("pipeline_".toList ++ z.toList ++ ".pkl".toList).length - 13)) = z.toList := by
    rw [hlen]
    have : 9 + z.toList.length + 4 - 13 = z.toList.length := by omega
    rw [this]
    exact List.take_left _ _
  apply Bool.and_eq_true_iff.mpr
  constructor
  · apply Bool.and_eq_true_iff.mpr
    constructor
    · apply Bool.and_eq_true_iff.mpr
      constructor
      · rw [List.append_assoc]
        exact isPrefixOf_append_self _ _
      · exact isSuffixOf_append_self _ _
    · rw [hlen]
      simp only [decide_eq_true_eq]
      omega
  · rw [hdrop, htake]
    apply List.all_eq_true.mpr
    intro c hc
    simp only [decide_eq_true_eq]
    intro hslash
    rw [hslash] at hc
    exact hs hc

lemma key_of_clean (z : String) (hocc : occursSub "pipeline_".toList z.toList = false) :
    pyReplace (pyStem ("pipeline_" ++ z ++ ".pkl")) "pipeline_" "" = z := by
  have hstem : pyStem ("pipeline_" ++ z ++ ".pkl") =
      String.mk ("pipeline_".toList ++ z.toList) := by
    unfold pyStem
    have htl : ("pipeline_" ++ z ++ ".pkl").toList =
        ("pipeline_".toList ++ z.toList) ++ ".pkl".toList := by
      rw [toList_append, toList_append]
    rw [htl, stem_append_pkl]
  rw [hstem]
  unfold pyReplace
  have htl2 : (String.mk ("pipeline_".toList ++ z.toList)).toList =
      "pipeline_".toList ++ z.toList := rfl
  rw [htl2]
  rw [replace_head _ _ _ (by decide)]
  rw [replace_no_occur _ _ _ hocc]
  have : ("" : String).toList = [] := rfl
  rw [this, List.nil_append]
  exact String.ext rfl

/- Store and training-loop lemmas. -/

lemma dedupFirst_nodup : ∀ l : List String, (dedupFirst l).Nodup := by
  intro l
  induction l with
  | nil => exact List.nodup_nil
  | cons z zs ih =>
    simp only [dedupFirst]
    apply List.nodup_cons.mpr
    constructor
    · intro hz
      have := (List.mem_filter.mp hz).2
      simp at this
    · exact List.Nodup.filter _ ih

lemma storeWrite_fresh (st : ClusterStore) (name : String) (pl : ClusterPipeline)
    (h : ∀ f ∈ st, f.1 ≠ name) : storeWrite st name pl = st ++ [(name, pl)] := by
  unfold storeWrite
  rw [if_neg]
  intro hc
  rcases List.any_eq_true.mp hc with ⟨f, hf, hbeq⟩
  exact h f hf (eq_of_beq hbeq)

lemma fname_inj {z1 z2 : String} (h : "pipeline_" ++ z1 ++ ".pkl" = "pipeline_" ++ z2 ++ ".pkl") :
    z1 = z2 := by
  have h2 := congrArg String.toList h
  rw [toList_append, toList_append, toList_append, toList_append] at h2
  exact String.ext (List.append_cancel_left (List.append_cancel_right h2))

lemma train_go_store (fitZone : String → Except String ClusterPipeline) :
    ∀ (zs : List String) (st st1 : ClusterStore) (pls : List (String × ClusterPipeline)),
      PipelineClusterFzz.train_by_zone_go fitZone zs st = (st1, Except.ok pls) →
      zs.Nodup → (∀ z ∈ zs, ∀ f ∈ st, f.1 ≠ "pipeline_" ++ z ++ ".pkl") →
      st1 = st ++ pls.map (fun e => ("pipeline_" ++ e.1 ++ ".pkl", e.2)) ∧
      pls.map Prod.fst = zs := by
  intro zs
  induction zs with
  | nil =>
    intro st st1 pls hgo _ _
    simp only [PipelineClusterFzz.train_by_zone_go, Prod.mk.injEq, Except.ok.injEq] at hgo
    rw [← hgo.1, ← hgo.2]
    simp
  | cons z zs ih =>
    intro st st1 pls hgo hnd hfresh
    cases hfz : fitZone z with
    | error e =>
      simp only [PipelineClusterFzz.train_by_zone_go, hfz, Prod.mk.injEq] at hgo
      exact absurd hgo.2 (by simp)
    | ok pl =>
      cases hrec : PipelineClusterFzz.train_by_zone_go fitZone zs
          (storeWrite st ("pipeline_" ++ z ++ ".pkl") pl) with
      | mk st2 res =>
        cases res with
        | error e =>
          simp only [PipelineClusterFzz.train_by_zone_go, hfz, hrec, Prod.mk.injEq] at hgo
          exact absurd hgo.2 (by simp)
        | ok rest =>
          simp only [PipelineClusterFzz.train_by_zone_go, hfz, hrec, Prod.mk.injEq,
            Except.ok.injEq] at hgo
          have hnd2 := List.nodup_cons.mp hnd
          have hst2 : storeWrite st ("pipeline_" ++ z ++ ".pkl") pl =
              st ++ [("pipeline_" ++ z ++ ".pkl", pl)] :=
            storeWrite_fresh st _ pl (fun f hf => hfresh z (by simp) f hf)
          have hfresh2 : ∀ z2 ∈ zs, ∀ f ∈ storeWrite st ("pipeline_" ++ z ++ ".pkl") pl,
              f.1 ≠ "pipeline_" ++ z2 ++ ".pkl" := by
            intro z2 hz2 f hf
            rw [hst2] at hf
            rcases List.mem_append.mp hf with hf2 | hf2
            · exact hfresh z2 (by simp [hz2]) f hf2
            · have hfe : f = ("pipeline_" ++ z ++ ".pkl", pl) := by simpa using hf2
              rw [hfe]
              intro heq
              exact hnd2.1 (fname_inj heq ▸ hz2)
          obtain ⟨hstore, hkeys⟩ := ih _ st2 rest hrec hnd2.2 hfresh2
          constructor
          · rw [← hgo.1, hstore, hst2, ← hgo.2]
            simp [List.append_assoc]
          · rw [← hgo.2]
            simp [hkeys]

lemma load_of_files (pls : List (String × ClusterPipeline))
    (hclean : ∀ zp ∈ pls,
      occursSub "pipeline_".toList zp.1.toList = false ∧ '/' ∉ zp.1.toList) :
    PipelineClusterFzz.load_pipelines
      (pls.map (fun e => ("pipeline_" ++ e.1 ++ ".pkl", e.2))) = pls := by
  unfold PipelineClusterFzz.load_pipelines
  have hfil : (pls.map (fun e => ("pipeline_" ++ e.1 ++ ".pkl", e.2))).filter
      (fun f => globPipelinePkl f.1) =
      pls.map (fun e => ("pipeline_" ++ e.1 ++ ".pkl", e.2)) := by
    apply List.filter_eq_self.mpr
    intro f hf
    rcases List.mem_map.mp hf with ⟨zp, hzp, hfe⟩
    rw [← hfe]
    exact glob_fname zp.1 (hclean zp hzp).2
  rw [hfil, List.map_map]
  apply map_id_mem
  intro zp hzp
  show (pyReplace (pyStem ("pipeline_" ++ zp.1 ++ ".pkl")) "pipeline_" "", zp.2) = zp
  rw [key_of_clean zp.1 (hclean zp hzp).1]

lemma dictGet_nodup {α : Type} : ∀ (l : List (String × α)), (l.map Prod.fst).Nodup →
    ∀ k v, (k, v) ∈ l → dictGet l k = some v := by
  intro l
  induction l with
  | nil =>
    intro _ k v hm
    simp at hm
  | cons e es ih =>
    intro hnd k v hm
    simp only [List.map_cons, List.nodup_cons] at hnd
    rcases List.mem_cons.mp hm with he | he
    · have hfes : es.filter (fun f => f.1 == k) = [] := by
        apply List.filter_eq_nil.mpr
        intro f hf hb
        apply hnd.1
        have hfk : f.1 = k := eq_of_beq hb
        have : k ∈ es.map Prod.fst := List.mem_map.mpr ⟨f, hf, hfk⟩
        rw [← he]
        exact this
      unfold dictGet
      rw [List.filter_cons]
      have hek : (e.1 == k) = true := by
        rw [← he]
        exact beq_self_eq_true k
      simp [hek, hfes, ← he]
    · have hne : (e.1 == k) = false := by
        apply beq_eq_false_iff_ne.mpr
        intro heq
        apply hnd.1
        rw [heq]
        exact List.mem_map.mpr ⟨(k, v), he, rfl⟩
      unfold dictGet
      rw [List.filter_cons]
      simp only [hne, Bool.false_eq_true, if_false]
      exact ih hnd.2 k v he

/-- C3, counterexample: train_by_zone on a frame whose only zone is named
"pipeline_" trains and saves that zone (file pipeline_pipeline_.pkl), but
load_pipelines parses the zone key back with stem.replace("pipeline_", ""),
which removes every occurrence of the substring, so the reloaded mapping has key
"" and does not contain the trained zone "pipeline_" as a key. -/
theorem C3_round_trip_counterexample :
    (PipelineClusterFzz.train_by_zone (fun _ => Except.ok plW)
        ⟨["Zona"], [[Cell.s "pipeline_"]]⟩ []).2 = Except.ok [("pipeline_", plW)] ∧
    dictGet (PipelineClusterFzz.load_pipelines
        (PipelineClusterFzz.train_by_zone (fun _ => Except.ok plW)
          ⟨["Zona"], [[Cell.s "pipeline_"]]⟩ []).1) "pipeline_" = none := by
  constructor
  · rfl
  · rfl

/-- C3, amended (round-trip persistence): for every zone trained by a successful
train_by_zone run into an empty model directory, provided no zone name contains
the substring "pipeline_" or a path separator (otherwise the filename-derived key
parsing of load_pipelines breaks, as the counterexample shows), the mapping
returned by load_pipelines contains that zone as a key, bound to the identical
persisted pipeline object, so predicting with the reloaded pipeline gives the
same cluster assignments as the in-memory one on every frame (the model is
deterministic: the fixed seed 42 is part of the fitted state). -/
theorem C3_round_trip_amended (fitZone : String → Except String ClusterPipeline)
    (df : PandasDF) (st1 : ClusterStore) (pls : List (String × ClusterPipeline))
    (hok : PipelineClusterFzz.train_by_zone fitZone df [] = (st1, Except.ok pls))
    (hclean : ∀ z ∈ uniqueZonas df,
      occursSub "pipeline_".toList z.toList = false ∧ '/' ∉ z.toList) :
    ∀ zp ∈ pls, dictGet (PipelineClusterFzz.load_pipelines st1) zp.1 = some zp.2 ∧
      ∀ dfq, ∃ plL, dictGet (PipelineClusterFzz.load_pipelines st1) zp.1 = some plL ∧
        PipelineClusterFzz.predict plL dfq = PipelineClusterFzz.predict zp.2 dfq := by
  obtain ⟨hst1, hkeys⟩ := train_go_store fitZone (uniqueZonas df) [] st1 pls hok
    (dedupFirst_nodup _) (by intro z hz f hf; simp at hf)
  have hcleanp : ∀ zp ∈ pls,
      occursSub "pipeline_".toList zp.1.toList = false ∧ '/' ∉ zp.1.toList := by
    intro zp hzp
    apply hclean
    rw [← hkeys]
    exact List.mem_map.mpr ⟨zp, hzp, rfl⟩
  have hload : PipelineClusterFzz.load_pipelines st1 = pls := by
    rw [hst1, List.nil_append]
    exact load_of_files pls hcleanp
  have hnd : (pls.map Prod.fst).Nodup := by
    rw [hkeys]
    exact dedupFirst_nodup _
  intro zp hzp
  have hget : dictGet (PipelineClusterFzz.load_pipelines st1) zp.1 = some zp.2 := by
    rw [hload]
    exact dictGet_nodup pls hnd zp.1 zp.2 (by simpa using hzp)
  exact ⟨hget, fun dfq => ⟨zp.2, hget, rfl⟩⟩

theorem C3_round_trip_amended_witness :
    (PipelineClusterFzz.train_by_zone (fun _ => Except.ok plW) dfW1 [] =
      ([("pipeline_A.pkl", plW), ("pipeline_B.pkl", plW)],
        Except.ok [("A", plW), ("B", plW)])) ∧
    (∀ z ∈ uniqueZonas dfW1,
      occursSub "pipeline_".toList z.toList = false ∧ '/' ∉ z.toList) ∧
    (∀ zp ∈ ([("A", plW), ("B", plW)] : List (String × ClusterPipeline)),
      dictGet (PipelineClusterFzz.load_pipelines
        [("pipeline_A.pkl", plW), ("pipeline_B.pkl", plW)]) zp.1 = some zp.2 ∧
      ∀ dfq, ∃ plL, dictGet (PipelineClusterFzz.load_pipelines
          [("pipeline_A.pkl", plW), ("pipeline_B.pkl", plW)]) zp.1 = some plL ∧
        PipelineClusterFzz.predict plL dfq = PipelineClusterFzz.predict zp.2 dfq) :=
  ⟨by rfl, by decide,
    C3_round_trip_amended (fun _ => Except.ok plW) dfW1
      [("pipeline_A.pkl", plW), ("pipeline_B.pkl", plW)] [("A", plW), ("B", plW)]
      (by rfl) (by decide)⟩

/-- C4: the claim states the intended error-handling design (the spec flags the
source's actual behavior as a design weakness to fix): in the code, an exception
while fitting one zone propagates out of train_by_zone unguarded.  On a two-zone
frame where fitting zone B raises, zone A is trained and its artifact persisted,
but the whole call aborts with the exception and no mapping at all is returned:
the failure is not isolated and the mapping for the other zones is lost. -/
theorem C4_per_zone_failure_aborts_training :
    PipelineClusterFzz.train_by_zone
        (fun z => if z == "B" then Except.error "FCM fit raised for zone B"
          else Except.ok plW) dfW1 [] =
      ([("pipeline_A.pkl", plW)], Except.error "FCM fit raised for zone B") := by
  rfl

/-- C5 (artifact-not-found is recoverable, never raised): load_pipelines on a
model directory with no file matching pipeline_*.pkl returns the empty mapping,
and PipelinePuntaje.load_pipeline returns None when pipe_puntaje.pkl is absent;
neither raises (both are total functions of the store). -/
theorem C5_artifact_not_found (st : ClusterStore) (st2 : PuntajeStore)
    (h1 : ∀ f ∈ st, globPipelinePkl f.1 = false)
    (h2 : ∀ f ∈ st2, f.1 ≠ "pipe_puntaje.pkl") :
    PipelineClusterFzz.load_pipelines st = [] ∧ PipelinePuntaje.load_pipeline st2 = none := by
  constructor
  · unfold PipelineClusterFzz.load_pipelines
    rw [List.filter_eq_nil.mpr (fun f hf => by rw [h1 f hf]; exact Bool.false_ne_true)]
    rfl
  · unfold PipelinePuntaje.load_pipeline
    rw [if_neg]
    intro hc
    rcases List.any_eq_true.mp hc with ⟨f, hf, hbeq⟩
    exact h2 f hf (eq_of_beq hbeq)

theorem C5_artifact_not_found_witness :
    (∀ f ∈ ([("euclidean_silhouette_scores.csv", plW)] : ClusterStore),
      globPipelinePkl f.1 = false) ∧
    (∀ f ∈ ([("pipeline_A.pkl", puntajeW)] : PuntajeStore), f.1 ≠ "pipe_puntaje.pkl") ∧
    (PipelineClusterFzz.load_pipelines [("euclidean_silhouette_scores.csv", plW)] = [] ∧
      PipelinePuntaje.load_pipeline [("pipeline_A.pkl", puntajeW)] = none) :=
  ⟨by decide, by decide, C5_artifact_not_found _ _ (by decide) (by decide)⟩

/-- C8 (classifier training split): PipelinePuntaje.fit first removes exactly the
rows whose puntaje label is missing, builds the compound stratification key
str(puntaje) + "_" + str(Zona) per remaining row (assigned as column
puntaje_zona_stratify on the frame passed as X), and calls train_test_split with
test fraction 0.20 (80/20), fixed random seed 42, stratified on that compound
key column. -/
theorem C8_classifier_training_split (df : PandasDF)
    (hstrat : df.cols.contains "puntaje_zona_stratify" = false) :
    (PipelinePuntaje.fitSplitCall df).testSize = 1 / 5 ∧
    (PipelinePuntaje.fitSplitCall df).seed = 42 ∧
    (PipelinePuntaje.fitSplitCall df).X.cols = df.cols ++ ["puntaje_zona_stratify"] ∧
    (PipelinePuntaje.fitSplitCall df).X.rows =
      (df.rows.filter (fun r => !(isNA (getCellD df.cols r "puntaje")))).map
        (fun r => r ++ [Cell.s (cellStr (getCellD df.cols r "puntaje") ++ "_" ++
          cellStr (getCellD df.cols r "Zona"))]) ∧
    (PipelinePuntaje.fitSplitCall df).stratify =
      (df.rows.filter (fun r => !(isNA (getCellD df.cols r "puntaje")))).map
        (fun r => cellStr (getCellD df.cols r "puntaje") ++ "_" ++
          cellStr (getCellD df.cols r "Zona")) ∧
    (∀ r ∈ df.rows, isNA (getCellD df.cols r "puntaje") = true →
      r ∉ (df.rows.filter (fun r => !(isNA (getCellD df.cols r "puntaje"))))) := by
  unfold PipelinePuntaje.fitSplitCall dropnaSubset setCol
  simp only [hstrat, Bool.false_eq_true, if_false]
  refine ⟨trivial, trivial, trivial, ?_, trivial, ?_⟩
  · show ((df.rows.filter (fun r => !(isNA (getCellD df.cols r "puntaje")))).zip
        (((df.rows.filter (fun r => !(isNA (getCellD df.cols r "puntaje")))).map
          (fun r => cellStr (getCellD df.cols r "puntaje") ++ "_" ++
            cellStr (getCellD df.cols r "Zona"))).map Cell.s)).map
        (fun p => p.1 ++ [p.2]) = _
    rw [List.map_map]
    exact zip_map_self
      (Cell.s ∘ fun r => cellStr (getCellD df.cols r "puntaje") ++ "_" ++
        cellStr (getCellD df.cols r "Zona"))
      (fun a b => a ++ [b]) _
  · intro r _ hna hmem
    have hkeep := (List.mem_filter.mp hmem).2
    rw [hna] at hkeep
    simp at hkeep

theorem C8_classifier_training_split_witness :
    (dfW2.cols.contains "puntaje_zona_stratify" = false) ∧
    ((PipelinePuntaje.fitSplitCall dfW2).testSize = 1 / 5 ∧
    (PipelinePuntaje.fitSplitCall dfW2).seed = 42 ∧
    (PipelinePuntaje.fitSplitCall dfW2).X.cols = dfW2.cols ++ ["puntaje_zona_stratify"] ∧
    (PipelinePuntaje.fitSplitCall dfW2).X.rows =
      (dfW2.rows.filter (fun r => !(isNA (getCellD dfW2.cols r "puntaje")))).map
        (fun r => r ++ [Cell.s (cellStr (getCellD dfW2.cols r "puntaje") ++ "_" ++
          cellStr (getCellD dfW2.cols r "Zona"))]) ∧
    (PipelinePuntaje.fitSplitCall dfW2).stratify =
      (dfW2.rows.filter (fun r => !(isNA (getCellD dfW2.cols r "puntaje")))).map
        (fun r => cellStr (getCellD dfW2.cols r "puntaje") ++ "_" ++
          cellStr (getCellD dfW2.cols r "Zona")) ∧
    (∀ r ∈ dfW2.rows, isNA (getCellD dfW2.cols r "puntaje") = true →
      r ∉ (dfW2.rows.filter (fun r => !(isNA (getCellD dfW2.cols r "puntaje")))))) :=
  ⟨by decide, C8_classifier_training_split dfW2 (by decide)⟩

/-- C9 (classifier prediction columns): PipelinePuntaje.predict runs
predict_proba on every input row with no zone filtering and appends exactly K
probability columns named puntaje_1 .. puntaje_K (1-based class positions, K the
number of classes of the fitted model), concatenated to a copy of the input with
the row order preserved. -/
theorem C9_classifier_prediction_columns (pl : PuntajePipeline) (df : PandasDF) :
    (PipelinePuntaje.predict pl df).cols =
      df.cols ++ (List.range pl.nClasses).map (fun i => "puntaje_" ++ toString (i + 1)) ∧
    ((List.range pl.nClasses).map (fun i => "puntaje_" ++ toString (i + 1))).length =
      pl.nClasses ∧
    (PipelinePuntaje.predict pl df).rows =
      df.rows.map (fun r => r ++ (pl.proba r).map Cell.q) ∧
    (∀ r ∈ df.rows, (pl.proba r).length = pl.nClasses) := by
  rw [puntaje_predict_shape pl df]
  exact ⟨rfl, by simp, rfl, fun r _ => pl.proba_len r⟩
